import Mathlib

/-!
Verification of the CSV consolidation / periodic-reconciliation engine of the
inventory application.

Shallow embedding of:
  * `splitCsvLine` and `parseCsv` from `src/components/DataConsolidation.tsx`
    (the identical copies in `src/unnamed/part_000` are `splitCsvLine` /
    `parseAbsoluteCsv`, where `parseAbsoluteCsv text = parseCsv text absoluteMappings`);
  * the consolidation merge in `handleConsolidate` of `DataConsolidation.tsx`;
  * the `POST /api/equipment/periodic-update` handler of
    `src/inventario-api/server.js`;
  * the `POST /api/equipment/import` handler of the same file.

JavaScript values that can flow through the relevant code are modelled by
`JVal` (undefined / null / string / number); strict `!==` is constructor-wise
disequality, exactly as in JS for these value shapes.  JS objects are
association lists in key-insertion order; property assignment updates the
first occurrence in place (keeping its position) or appends, which is the JS
semantics for plain objects and for `Map.set`.  `String.trim` models JS
`.trim()` and `jsToUpper` models `.toUpperCase()` on the ASCII range (all
inputs exercised by the claims are ASCII, and the accented header constants
are already upper case).
-/

/-- Canonical equipment field names (the keys of the records the engine
manipulates).  `localField` renders the source field `local`, which is a Lean
keyword.  `approvalStatus` / `createdById` render the database columns
`approval_status` / `created_by_id` set by the server handlers. -/
inductive FieldName where
  | equipamento | garantia | patrimonio | serial | usuarioAtual | usuarioAnterior
  | localField | setor | dataEntregaUsuario | status | dataDevolucao | tipo
  | notaCompra | notaPlKm | termoResponsabilidade | foto | qrCode
  | brand | model | emailColaborador | identificador | nomeSO
  | memoriaFisicaTotal | grupoPoliticas | pais | cidade | estadoProvincia
  | approvalStatus | createdById
  deriving DecidableEq, Repr

/-- JavaScript values relevant to the engine: `undefined`, `null`, strings and
(small) numbers. -/
inductive JVal where
  | undef
  | null
  | str (s : String)
  | num (n : Nat)
  deriving DecidableEq, Repr

/-- JS strict disequality `!==` on the modelled value shapes: values of
different kinds are never strictly equal; strings and numbers compare by
value. -/
def jsStrictNeq (a b : JVal) : Bool := decide (a ≠ b)

/-- Association-list read: value of the first entry with the given key
(`obj[k]`, yielding `none` for an absent property). -/
def assocGet {α β : Type} [DecidableEq α] : List (α × β) → α → Option β
  | [], _ => none
  | (k', v') :: rest, k => if k' = k then some v' else assocGet rest k

/-- Association-list write (`obj[k] = v` on a JS object, `Map.set`): update
the first entry with the key in place, else append. -/
def assocSet {α β : Type} [DecidableEq α] : List (α × β) → α → β → List (α × β)
  | [], k, v => [(k, v)]
  | (k', v') :: rest, k, v =>
    if k' = k then (k, v) :: rest else (k', v') :: assocSet rest k v

/-- A partial equipment record as built by the front-end parsers: a JS object
whose values are strings. -/
abbrev JObj := List (FieldName × String)

/-- `c.toUpperCase()` on a single character (ASCII letter range, as in the
inputs the claims exercise). -/
def upChar (c : Char) : Char :=
  if 97 ≤ c.toNat ∧ c.toNat ≤ 122 then Char.ofNat (c.toNat - 32) else c

/-- JS `s.toUpperCase()`. -/
def jsToUpper (s : String) : String := ⟨s.data.map upChar⟩

/-- JS `s.replace(/ /g, '')`: remove every space character. -/
def stripSpaces (s : String) : String := ⟨s.data.filter (fun c => c ≠ ' ')⟩

/-- JS `s.replace(/[\s\/]+/g, '')`: remove every whitespace and slash
character (used by the header normalizer). -/
def stripWsSlash (s : String) : String :=
  ⟨s.data.filter (fun c => ¬(c.isWhitespace ∨ c = '/'))⟩

/-- JS `s.trim()`: drop leading and trailing whitespace (ASCII whitespace,
which covers every input the claims exercise). -/
def jsTrim (s : String) : String :=
  ⟨((s.data.dropWhile Char.isWhitespace).reverse.dropWhile Char.isWhitespace).reverse⟩

/-- `.replace(/^"|"$/g, '')`: strip one leading and one trailing double
quote, each if present. -/
def stripOuterQuotes (s : String) : String :=
  let l := s.data
  let l1 := match l with
            | '"' :: rest => rest
            | _ => l
  let l2 := match l1.getLast? with
            | some '"' => l1.dropLast
            | _ => l1
  ⟨l2⟩

/-- Scanner state of `splitCsvLine`: emitted fields, the field being built,
and the inside-quotes flag. -/
structure SplitAcc where
  result : List String
  current : String
  inQuote : Bool

/-- One character step of `splitCsvLine`: a double quote toggles the flag, an
unquoted separator emits the current field (trimmed, outer quotes stripped),
anything else is appended to the current field. -/
def splitStep (sep : Char) (acc : SplitAcc) (c : Char) : SplitAcc :=
  if c = '"' then { acc with inQuote := !acc.inQuote }
  else if c = sep ∧ ¬acc.inQuote then
    { result := acc.result ++ [stripOuterQuotes (jsTrim acc.current)]
      current := ""
      inQuote := acc.inQuote }
  else { acc with current := acc.current.push c }

/-- `splitCsvLine` of `DataConsolidation.tsx` (textually identical in
`src/unnamed/part_000`): scan the line left to right and emit the final
in-progress field at the end.  Total by construction — the source function
never throws. -/
def splitCsvLine (line : String) : List String :=
  let acc := line.data.foldl (splitStep ',') ⟨[], "", false⟩
  acc.result ++ [stripOuterQuotes (jsTrim acc.current)]

/-- Number of separator commas of a line that sit outside double quotes: a
comma preceded by an even number of `"` characters. -/
def cntUnquoted : List Char → Bool → Nat
  | [], _ => 0
  | c :: cs, q =>
    if c = '"' then cntUnquoted cs (!q)
    else if c = ',' ∧ ¬q then cntUnquoted cs q + 1
    else cntUnquoted cs q

/-- Commas of `line` outside double quotes. -/
def unquotedCommas (line : String) : Nat := cntUnquoted line.data false

/-- A header-cell → canonical-field mapping table. -/
abbrev Mappings := List (String × FieldName)

/-- Split on `/\r\n|\n/`: a CRLF pair or a bare LF ends a line; a lone CR
does not. -/
def splitLinesCore : List Char → List Char → List String
  | [], cur => [⟨cur.reverse⟩]
  | '\r' :: '\n' :: rest, cur => ⟨cur.reverse⟩ :: splitLinesCore rest []
  | '\n' :: rest, cur => ⟨cur.reverse⟩ :: splitLinesCore rest []
  | c :: rest, cur => splitLinesCore rest (c :: cur)

/-- `fileText.trim().split(/\r\n|\n/)`. -/
def splitLines (s : String) : List String := splitLinesCore (jsTrim s).data []

/-- `mappings[normalizedColName] || mappings[colName.toUpperCase()]` where
`normalizedColName = colName.replace(/[\s\/]+/g, '').toUpperCase()`. -/
def lookupMapped (mappings : Mappings) (colName : String) : Option FieldName :=
  match assocGet mappings (jsToUpper (stripWsSlash colName)) with
  | some k => some k
  | none => assocGet mappings (jsToUpper colName)

/-- The `header.forEach((colName, index) => ...)` loop of `parseCsv`: for each
header position with a mapped canonical field and an in-range value, assign
the trimmed value. -/
def buildEntry (mappings : Mappings) (header : List String) (values : List String) : JObj :=
  header.enum.foldl
    (fun entry p =>
      match lookupMapped mappings p.2 with
      | some k =>
        if h : p.1 < values.length then assocSet entry k (jsTrim (values.get ⟨p.1, h⟩))
        else entry
      | none => entry)
    []

/-- The per-row body of `parseCsv`: skip a blank raw line, tokenize, build
the record, and discard it when its `serial` is absent, empty, or
whitespace-only. -/
def parseRow (mappings : Mappings) (header : List String) (row : String) : Option JObj :=
  if jsTrim row = "" then none
  else
    let values := splitCsvLine row
    let entry := buildEntry mappings header values
    match assocGet entry .serial with
    | none => none
    | some s => if s = "" ∨ jsTrim s = "" then none else some entry

/-- `parseCsv` of `DataConsolidation.tsx` (and, specialised to
`absoluteMappings`, `parseAbsoluteCsv` of `src/unnamed/part_000`): split into
lines, require a header and at least one data row, normalize the header, build
one record per non-blank row and discard rows whose `serial` is missing,
empty, or whitespace-only. -/
def parseCsv (fileText : String) (mappings : Mappings) : Except String (List JObj) :=
  let lines := splitLines fileText
  if lines.length < 2 then
    .error "O arquivo CSV deve conter um cabecalho e pelo menos uma linha de dados."
  else
    let line0 := lines.headD ""
    let headerLine := if line0.data.getLast? = some ',' then (⟨line0.data.dropLast⟩ : String) else line0
    let header := (splitCsvLine headerLine).map (fun h => jsToUpper (jsTrim h))
    let rows := lines.drop 1
    .ok (rows.filterMap (parseRow mappings header))

/-- The base-spreadsheet mapping table of `handleConsolidate`. -/
def baseMappings : Mappings :=
  [("EQUIPAMENTO", .equipamento), ("GARANTIA", .garantia), ("PATRIMONIO", .patrimonio),
   ("SERIAL", .serial), ("USUÁRIO ATUAL", .usuarioAtual), ("USUÁRIO ANTERIOR", .usuarioAnterior),
   ("LOCAL", .localField), ("SETOR", .setor), ("DATA ENTREGA O USUÁRIO", .dataEntregaUsuario),
   ("STATUS", .status), ("DATA DE DEVOLUÇÃO", .dataDevolucao), ("TIPO", .tipo),
   ("NOTA DE COMPRA", .notaCompra), ("NOTA / PL K&M", .notaPlKm),
   ("TERMO DE RESPONSABILIDADE", .termoResponsabilidade), ("FOTO", .foto),
   ("QR CODE", .qrCode), ("MARCA", .brand), ("MODELO", .model),
   ("EMAIL COLABORADOR", .emailColaborador), ("IDENTIFICADOR", .identificador),
   ("NOME DO SO", .nomeSO), ("MEMÓRIA FÍSICA TOTAL", .memoriaFisicaTotal),
   ("GRUPO DE POLÍTICAS", .grupoPoliticas), ("PAÍS", .pais), ("CIDADE", .cidade),
   ("ESTADO/PROVÍNCIA", .estadoProvincia)]

/-- The Absolute-report mapping table (`handleConsolidate` and
`parseAbsoluteCsv`). -/
def absoluteMappings : Mappings :=
  [("NOMEDODISPOSITIVO", .equipamento), ("NÚMERODESÉRIE", .serial),
   ("NOMEDOUSUÁRIOATUAL", .usuarioAtual), ("MARCA", .brand), ("MODELO", .model),
   ("EMAIL DO COLABORADOR", .emailColaborador), ("IDENTIFICADOR", .identificador),
   ("NOME DO SO", .nomeSO), ("MEMÓRIA FÍSICA TOTAL", .memoriaFisicaTotal),
   ("GRUPO DE POLÍTICAS", .grupoPoliticas), ("PAÍS", .pais), ("CIDADE", .cidade),
   ("ESTADO/PROVÍNCIA", .estadoProvincia)]

/-- `{...a, ...b}` on JS objects: start from `a` and assign every own
property of `b` on top (present fields of `b` overwrite, absent fields of `b`
leave `a` untouched). -/
def jsSpread (a b : JObj) : JObj :=
  b.foldl (fun acc kv => assocSet acc kv.1 kv.2) a

/-- The consolidation merge key of `handleConsolidate`
(`DataConsolidation.tsx`): `item.serial!.toUpperCase().replace(/ /g, '')`. -/
def consMergeKey (o : JObj) : String :=
  stripSpaces (jsToUpper ((assocGet o .serial).getD ""))

/-- `item.usuarioAtual && item.usuarioAtual.trim() !== ''`: the occupant
field is present, truthy, and not whitespace-only. -/
def nonblankUser (o : JObj) : Bool :=
  match assocGet o .usuarioAtual with
  | some u => decide (u ≠ "" ∧ jsTrim u ≠ "")
  | none => false

/-- The per-record status step of `handleConsolidate`: a record with a
non-blank occupant receives `status: 'Em Uso'`; any other record is returned
unchanged. -/
def statusAdjust (o : JObj) : JObj :=
  if nonblankUser o then assocSet o .status "Em Uso" else o

/-- The `consolidatedMap` of `handleConsolidate` when both files are present:
insert all base records first, then overlay each absolute record on whatever
sits under its merge key (`{...existingItem, ...absoluteItem}`). -/
def buildConsMap (baseData absoluteData : List JObj) : List (String × JObj) :=
  let m1 := baseData.foldl (fun m b => assocSet m (consMergeKey b) b) []
  absoluteData.foldl
    (fun m a =>
      assocSet m (consMergeKey a) (jsSpread ((assocGet m (consMergeKey a)).getD []) a))
    m1

/-- `finalData` of `handleConsolidate` for the both-files branch: the merge
map values in insertion order, each passed through the status step. -/
def consolidateBoth (baseData absoluteData : List JObj) : List JObj :=
  ((buildConsMap baseData absoluteData).map Prod.snd).map statusAdjust

/-- `finalData` of `handleConsolidate` for the single-file branches: the
parsed records, each passed through the status step. -/
def consolidateSingle (data : List JObj) : List JObj := data.map statusAdjust

/-- A persisted `equipment` row: primary key, serial, and the remaining
columns as stored values (a column absent from the list reads as SQL `NULL`,
i.e. JS `null`). -/
structure DbRow where
  id : Nat
  serial : String
  fields : List (FieldName × JVal)
  deriving DecidableEq, Repr

/-- Read a column of a persisted row (`null` for a column never written). -/
def dbGet (r : DbRow) (f : FieldName) : JVal :=
  (assocGet r.fields f).getD JVal.null

/-- The row object the periodic-update handler actually holds:
`SELECT id, serial, usuarioAtual, status FROM equipment` projects the row to
those columns, so every other property of `existing` is `undefined`. -/
def existingView (r : DbRow) (f : FieldName) : JVal :=
  if f = .usuarioAtual ∨ f = .status then dbGet r f else JVal.undef

/-- An element of the `equipmentList` payload of the periodic-update request:
`serial` (a string — the handler calls `toUpperCase()` on it) plus the other
own properties in insertion order, whose values are strings (the front-end
parsers produce only string fields and JSON drops the `id: undefined` key). -/
structure InItem where
  serial : String
  fields : List (FieldName × String)
  deriving DecidableEq, Repr

/-- `(item.usuarioAtual || '')`. -/
def itemUsuario (it : InItem) : String :=
  (assocGet it.fields .usuarioAtual).getD ""

/-- `const newStatus = (item.usuarioAtual || '').trim() !== '' ? 'Em Uso' :
'Estoque'` — derived unconditionally, with no protected terminal statuses. -/
def newStatus (it : InItem) : String :=
  if jsTrim (itemUsuario it) ≠ "" then "Em Uso" else "Estoque"

/-- The change-type column of an `equipment_history` row: a field name, or
`CREATE` for a fresh insert. -/
inductive ChangeType where
  | fieldC (f : FieldName)
  | create
  deriving DecidableEq, Repr

/-- A staged `equipment_history` entry. -/
structure FieldChange where
  equipment_id : Nat
  changedBy : String
  changeType : ChangeType
  from_value : JVal
  to_value : JVal
  deriving DecidableEq, Repr

/-- The diff condition of the `Object.keys(item).forEach` loop:
`key !== 'serial' && item[key] !== existing[key]` (strict JS comparison
against the projected row). -/
def stageChange (r : DbRow) (kv : FieldName × String) : Bool :=
  decide (kv.1 ≠ .serial) && jsStrictNeq (.str kv.2) (existingView r kv.1)

/-- Accumulator of the diff loop: the `updates` object, the `hasChanges`
flag, and the staged history entries. -/
structure DiffAcc where
  updates : List (FieldName × String)
  hasChanges : Bool
  history : List FieldChange
  deriving DecidableEq, Repr

/-- The history entry staged for one changed field: old value as read from
the projected row, new value from the incoming item. -/
def chEntry (r : DbRow) (user : String) (kv : FieldName × String) : FieldChange :=
  ⟨r.id, user, .fieldC kv.1, existingView r kv.1, .str kv.2⟩

/-- One key of the `Object.keys(item).forEach` diff loop: a differing
non-serial field is written into `updates`, sets `hasChanges`, and stages a
history entry. -/
def diffStep (r : DbRow) (user : String) (acc : DiffAcc) (kv : FieldName × String) : DiffAcc :=
  if stageChange r kv then
    { updates := assocSet acc.updates kv.1 kv.2
      hasChanges := true
      history := acc.history ++ [chEntry r user kv] }
  else acc

/-- The `Object.keys(item).forEach` diff loop of the periodic-update
handler. -/
def diffFields (r : DbRow) (user : String) (it : InItem) : DiffAcc :=
  it.fields.foldl (diffStep r user) ⟨[], false, []⟩

/-- The full matched-record step: the diff loop followed by the status check.
When `newStatus` differs from the persisted status it is written into
`updates`, but its history entry is staged only when no other field changed
(`if (!hasChanges)` in the source). -/
def processMatched (r : DbRow) (user : String) (it : InItem) :
    List (FieldName × String) × Bool × List FieldChange :=
  let acc := diffFields r user it
  let ns := newStatus it
  if jsStrictNeq (.str ns) (dbGet r .status) then
    (assocSet acc.updates .status ns,
     true,
     if acc.hasChanges then acc.history
     else acc.history ++ [⟨r.id, user, .fieldC .status, dbGet r .status, .str ns⟩])
  else (acc.updates, acc.hasChanges, acc.history)

/-- `UPDATE equipment SET ? WHERE id = ?`: write each assignment into the
row. -/
def setFields (r : DbRow) (upds : List (FieldName × String)) : DbRow :=
  { r with fields := upds.foldl (fun fs kv => assocSet fs kv.1 (JVal.str kv.2)) r.fields }

/-- The row inserted for an unmatched incoming item:
`{...item, status: newStatus, approval_status: 'approved', created_by_id: 1}`. -/
def insertRow (idv : Nat) (it : InItem) : DbRow :=
  let fs := (it.fields.filter (fun kv => kv.1 ≠ .serial)).map
    (fun kv => (kv.1, JVal.str kv.2))
  let fs := assocSet fs .status (.str (newStatus it))
  let fs := assocSet fs .approvalStatus (.str "approved")
  let fs := assocSet fs .createdById (.num 1)
  ⟨idv, it.serial, fs⟩

/-- The `CREATE` history entry staged for a fresh insert. -/
def createEntry (idv : Nat) (user : String) (it : InItem) : FieldChange :=
  ⟨idv, user, .create, JVal.null,
   ((assocGet it.fields .equipamento).map JVal.str).getD JVal.undef⟩

/-- The equipment table together with its `AUTO_INCREMENT` counter. -/
structure RecoSt where
  rows : List DbRow
  nextId : Nat
  deriving DecidableEq, Repr

/-- Result of one periodic-update call: the post state, the bulk-inserted
history entries, and the number of issued `UPDATE` / `INSERT` statements. -/
structure RecoOut where
  post : RecoSt
  history : List FieldChange
  updateOps : Nat
  insertOps : Nat
  deriving DecidableEq, Repr

/-- `new Map(existingEquipmentRows.map(e => [e.serial.toUpperCase(), e]))` —
note: upper-cased only, spaces are NOT stripped here. -/
def buildExistingMap (rows : List DbRow) : List (String × DbRow) :=
  rows.foldl (fun m r => assocSet m (jsToUpper r.serial) r) []

/-- One iteration of the `for (const item of equipmentList)` loop, acting on
the accumulated state.  All diffs read the map built from the pre-call
`SELECT`; updates are keyed by `id`; a miss inserts with the next
auto-increment id and stages a `CREATE` entry. -/
def recoStep (emap : List (String × DbRow)) (user : String) (acc : RecoOut)
    (it : InItem) : RecoOut :=
  match assocGet emap (jsToUpper it.serial) with
  | some r =>
    let res := processMatched r user it
    if res.2.1 then
      { post := { acc.post with
          rows := acc.post.rows.map (fun q => if q.id = r.id then setFields q res.1 else q) }
        history := acc.history ++ res.2.2
        updateOps := acc.updateOps + 1
        insertOps := acc.insertOps }
    else acc
  | none =>
    { post := { rows := acc.post.rows ++ [insertRow acc.post.nextId it]
                nextId := acc.post.nextId + 1 }
      history := acc.history ++ [createEntry acc.post.nextId user it]
      updateOps := acc.updateOps
      insertOps := acc.insertOps + 1 }

/-- The `POST /api/equipment/periodic-update` handler of
`src/inventario-api/server.js`: select the persisted rows, key them by
upper-cased serial, and process each incoming item against that fixed map. -/
def reconcile (st : RecoSt) (items : List InItem) (user : String) : RecoOut :=
  items.foldl (recoStep (buildExistingMap st.rows) user) ⟨st, [], 0, 0⟩

/-- The equipment store as `POST /api/equipment/import` sees it: the
equipment rows, the `equipment_history` rows, and the auto-increment
counter. -/
structure ImportSt where
  rows : List DbRow
  history : List FieldChange
  nextId : Nat
  deriving DecidableEq, Repr

/-- The columns (besides `serial` and `dataEntregaUsuario`) named by the
`INSERT` of the import handler and filled from the incoming record. -/
def importColumns : List FieldName :=
  [.equipamento, .patrimonio, .brand, .model, .tipo, .status, .usuarioAtual,
   .emailColaborador, .localField, .setor, .identificador, .nomeSO,
   .memoriaFisicaTotal, .grupoPoliticas, .pais, .cidade, .estadoProvincia]

/-- The row inserted by the import handler for one incoming record: the
listed columns from the record (an absent property is bound as SQL `NULL`),
`equipment.dataEntregaUsuario || null`, and the fixed
`approval_status = 'approved'`, `created_by_id = 1`. -/
def importRow (idv : Nat) (item : JObj) : DbRow :=
  let fs := importColumns.map
    (fun f => (f, ((assocGet item f).map JVal.str).getD JVal.null))
  let deu := match assocGet item .dataEntregaUsuario with
             | some s => if s = "" then JVal.null else JVal.str s
             | none => JVal.null
  ⟨idv, (assocGet item .serial).getD "",
   fs ++ [(.dataEntregaUsuario, deu), (.approvalStatus, .str "approved"),
          (.createdById, .num 1)]⟩

/-- The `POST /api/equipment/import` handler of `src/inventario-api/server.js`
inside its transaction: `DELETE FROM equipment_history`, `DELETE FROM
equipment`, `ALTER TABLE equipment AUTO_INCREMENT = 1`, then one `INSERT`
per incoming record. -/
def importOp (st : ImportSt) (items : List JObj) : ImportSt :=
  let st1 : ImportSt := { st with history := [] }
  let st2 : ImportSt := { st1 with rows := [] }
  let st3 : ImportSt := { st2 with nextId := 1 }
  items.foldl
    (fun s item =>
      { s with rows := s.rows ++ [importRow s.nextId item], nextId := s.nextId + 1 })
    st3

/-- The rows the import inserts for `items`, with ids counting up from `n`. -/
def importRowsFrom (n : Nat) : List JObj → List DbRow
  | [] => []
  | item :: rest => importRow n item :: importRowsFrom (n + 1) rest

/-- Emitted-field count of the tokenizer fold: each unquoted separator emits
exactly one field. -/
theorem splitStep_result_length (cs : List Char) :
    ∀ (res : List String) (cur : String) (q : Bool),
      ((cs.foldl (splitStep ',') ⟨res, cur, q⟩).result).length
        = res.length + cntUnquoted cs q := by
  induction cs with
  | nil => intro res cur q; simp [cntUnquoted]
  | cons c cs ih =>
    intro res cur q
    simp only [List.foldl_cons, splitStep, cntUnquoted]
    split_ifs with h1 h2
    · simp [ih]
    · simp [ih]
      omega
    · simp [ih]

/-- C9 — Tokenizer totality and field counts.  `splitCsvLine` is a total
function (so it never throws); for every input line it yields exactly one
field more than the number of separator commas outside double quotes (hence a
quoted comma does not split); and `splitCsvLine "a,\"b,c\",d"` is
`["a", "b,c", "d"]`. -/
theorem tokenizer_field_count :
    (∀ line : String, (splitCsvLine line).length = unquotedCommas line + 1) ∧
    splitCsvLine "a,\"b,c\",d" = ["a", "b,c", "d"] := by
  refine ⟨fun line => ?_, by decide⟩
  simp [splitCsvLine, unquotedCommas, splitStep_result_length]

/-- C2 — the periodic reconciliation is NOT idempotent.  With the persisted
row `{id: 1, serial: "ABC", usuarioAtual: "Bob", status: "Em Uso", brand:
"Dell"}` and the incoming dataset `[{serial: "ABC", usuarioAtual: "Bob",
brand: "Dell"}]`, the second run with the identical dataset again produces
one field change (`brand`: `undefined` → `"Dell"`) and one `UPDATE`, because
the handler selects only `id, serial, usuarioAtual, status` and every other
incoming field compares against `undefined` forever. -/
theorem reconcile_not_idempotent :
    let items : List InItem := [⟨"ABC", [(.usuarioAtual, "Bob"), (.brand, "Dell")]⟩]
    let st : RecoSt := ⟨[⟨1, "ABC", [(.usuarioAtual, .str "Bob"),
      (.status, .str "Em Uso"), (.brand, .str "Dell")]⟩], 2⟩
    let run2 := reconcile (reconcile st items "u").post items "u"
    run2.history = [⟨1, "u", .fieldC .brand, .undef, .str "Dell"⟩] ∧
    run2.updateOps = 1 ∧ run2.insertOps = 0 := by decide

/-- C3 — the status transition is NOT recorded in history when another field
also changed.  On the spec's own end-to-end input (persisted `{id: 1, serial:
"ABC", usuarioAtual: "Bob", status: "Em Uso"}`, incoming `{serial: "ABC",
usuarioAtual: ""}`) the update writes `status = "Estoque"`, but the only
history entry is the `usuarioAtual` one: the `if (!hasChanges)` guard
suppresses the status entry as soon as any other field changed. -/
theorem reconcile_status_history_suppressed :
    (reconcile ⟨[⟨1, "ABC", [(.usuarioAtual, .str "Bob"), (.status, .str "Em Uso")]⟩], 2⟩
        [⟨"ABC", [(.usuarioAtual, "")]⟩] "u").history
      = [⟨1, "u", .fieldC .usuarioAtual, .str "Bob", .str ""⟩] ∧
    (∀ e ∈ (reconcile ⟨[⟨1, "ABC", [(.usuarioAtual, .str "Bob"), (.status, .str "Em Uso")]⟩], 2⟩
        [⟨"ABC", [(.usuarioAtual, "")]⟩] "u").history, e.changeType ≠ .fieldC .status) ∧
    (reconcile ⟨[⟨1, "ABC", [(.usuarioAtual, .str "Bob"), (.status, .str "Em Uso")]⟩], 2⟩
        [⟨"ABC", [(.usuarioAtual, "")]⟩] "u").post.rows.map (fun q => dbGet q .status)
      = [.str "Estoque"] ∧
    (reconcile ⟨[⟨1, "ABC", [(.usuarioAtual, .str "Bob"), (.status, .str "Em Uso")]⟩], 2⟩
        [⟨"ABC", [(.usuarioAtual, "")]⟩] "u").updateOps = 1 := by decide

/-- C1 counterexample — the protected-terminal-status exception does not
exist in the periodic-update handler: a persisted record with status
`"Manutenção"` and a blank incoming `usuarioAtual` is moved to `"Estoque"`
instead of keeping its status. -/
theorem statusDerivation_protection_violated :
    (reconcile ⟨[⟨1, "ABC", [(.usuarioAtual, .str ""), (.status, .str "Manutenção")]⟩], 2⟩
        [⟨"ABC", [(.usuarioAtual, "")]⟩] "u").post.rows.map (fun q => dbGet q .status)
      ≠ [.str "Manutenção"] ∧
    (reconcile ⟨[⟨1, "ABC", [(.usuarioAtual, .str ""), (.status, .str "Manutenção")]⟩], 2⟩
        [⟨"ABC", [(.usuarioAtual, "")]⟩] "u").post.rows.map (fun q => dbGet q .status)
      = [.str "Estoque"] := by decide

/-- C4 counterexample — a field pair differing only as `null` versus `""` DOES
emit a `FieldChange`: the diff uses strict `!==` with no string
normalization, so persisted `usuarioAtual = NULL` against incoming
`usuarioAtual = ""` stages a history entry. -/
theorem diff_null_vs_empty_emits :
    (reconcile ⟨[⟨1, "ABC", [(.usuarioAtual, .null), (.status, .str "Estoque")]⟩], 2⟩
        [⟨"ABC", [(.usuarioAtual, "")]⟩] "u").history
      = [⟨1, "u", .fieldC .usuarioAtual, .null, .str ""⟩] := by decide

/-- C5 counterexample — `"SN 123"` and `"sn123"` collide in consolidation
(one merged record) but NOT in reconciliation: the periodic-update key is
upper-cased only, spaces are not stripped, so the incoming `"sn123"` misses
the persisted `"SN 123"` row and a second row is inserted. -/
theorem mergeKey_space_divergence :
    (consolidateBoth [[(.serial, "SN 123"), (.brand, "Dell")]]
        [[(.serial, "sn123"), (.brand, "HP")]]).length = 1 ∧
    (reconcile ⟨[⟨1, "SN 123", [(.status, .str "Estoque")]⟩], 2⟩
        [⟨"sn123", []⟩] "u").insertOps = 1 ∧
    (reconcile ⟨[⟨1, "SN 123", [(.status, .str "Estoque")]⟩], 2⟩
        [⟨"sn123", []⟩] "u").post.rows.length = 2 := by decide

/-- Reading after a write: the written key returns the new value, any other
key is unaffected. -/
theorem assocGet_assocSet {α β : Type} [DecidableEq α]
    (l : List (α × β)) (k k' : α) (v : β) :
    assocGet (assocSet l k v) k' = if k = k' then some v else assocGet l k' := by
  induction l with
  | nil => simp [assocSet, assocGet]
  | cons ab rest ih =>
    obtain ⟨a, b⟩ := ab
    by_cases h : a = k
    · subst h
      simp only [assocSet, if_pos rfl, assocGet]
      by_cases h' : a = k'
      · subst h'; simp
      · simp [h']
    · simp only [assocSet, if_neg h, assocGet]
      by_cases h' : a = k'
      · subst h'
        have hk : ¬k = a := fun hh => h hh.symm
        simp [hk]
      · simp [h', ih]

/-- A key that occurs in no entry reads as `none`. -/
theorem assocGet_eq_none {α β : Type} [DecidableEq α]
    (l : List (α × β)) (k : α) (h : k ∉ l.map Prod.fst) : assocGet l k = none := by
  induction l with
  | nil => rfl
  | cons ab rest ih =>
    obtain ⟨a, b⟩ := ab
    simp only [List.map_cons, List.mem_cons, not_or] at h
    have hne : ¬a = k := fun hh => h.1 hh.symm
    simp only [assocGet, if_neg hne]
    exact ih h.2

/-- Per-field semantics of the JS spread `{...a, ...b}` for an object `b`
with no duplicate keys: a field present on `b` wins, an absent one falls back
to `a`. -/
theorem assocGet_jsSpread (a b : JObj) (hb : (b.map Prod.fst).Nodup) (f : FieldName) :
    assocGet (jsSpread a b) f
      = if (assocGet b f).isSome then assocGet b f else assocGet a f := by
  induction b generalizing a with
  | nil => simp [jsSpread, assocGet]
  | cons kv rest ih =>
    obtain ⟨k, v⟩ := kv
    simp only [List.map_cons, List.nodup_cons] at hb
    have hstep : jsSpread a ((k, v) :: rest) = jsSpread (assocSet a k v) rest := rfl
    rw [hstep, ih _ hb.2]
    by_cases h : k = f
    · subst h
      have hrest : assocGet rest k = none :=
        assocGet_eq_none rest k (by simpa using hb.1)
      simp [hrest, assocGet, assocGet_assocSet]
    · simp [assocGet, fun hh => h hh, h, assocGet_assocSet]

/-- An `UPDATE` never changes the primary key. -/
theorem setFields_id (r : DbRow) (u : List (FieldName × String)) :
    (setFields r u).id = r.id := rfl

/-- Soundness of the serial-keyed map: every value it yields is one of the
folded rows, stored under its own upper-cased serial. -/
theorem buildMapAux_sound :
    ∀ (rows : List DbRow) (m : List (String × DbRow)) (k : String) (r : DbRow),
      assocGet (rows.foldl (fun m r => assocSet m (jsToUpper r.serial) r) m) k = some r →
      assocGet m k = some r ∨ (r ∈ rows ∧ jsToUpper r.serial = k) := by
  intro rows
  induction rows with
  | nil => intro m k r h; exact Or.inl h
  | cons r0 rest ih =>
    intro m k r h
    rcases ih _ _ _ h with h' | h'
    · rw [assocGet_assocSet] at h'
      by_cases hk : jsToUpper r0.serial = k
      · rw [if_pos hk] at h'
        have hr0 : r0 = r := Option.some_inj.mp h'
        subst hr0
        exact Or.inr ⟨List.mem_cons_self _ _, hk⟩
      · rw [if_neg hk] at h'
        exact Or.inl h'
    · exact Or.inr ⟨List.mem_cons_of_mem _ h'.1, h'.2⟩

/-- Soundness of `buildExistingMap`. -/
theorem buildExistingMap_sound (rows : List DbRow) (k : String) (r : DbRow)
    (h : assocGet (buildExistingMap rows) k = some r) :
    r ∈ rows ∧ jsToUpper r.serial = k := by
  rcases buildMapAux_sound rows [] k r h with h' | h'
  · cases h'
  · exact h'

/-- One reconciliation step can only move ids forward: every id present
before the step is present after it. -/
theorem recoStep_id_mem (emap : List (String × DbRow)) (user : String)
    (acc : RecoOut) (it : InItem) (i : Nat)
    (h : i ∈ acc.post.rows.map DbRow.id) :
    i ∈ (recoStep emap user acc it).post.rows.map DbRow.id := by
  unfold recoStep
  cases hm : assocGet emap (jsToUpper it.serial) with
  | none => simpa using Or.inl h
  | some r =>
    by_cases hc : (processMatched r user it).2.1
    · simp only [hc, if_pos]
      have hmap : ∀ q : DbRow,
          DbRow.id (if q.id = r.id then setFields q (processMatched r user it).1 else q)
            = q.id := by
        intro q; split <;> simp [setFields_id]
      simpa [List.map_map, Function.comp, hmap] using h
    · simpa [hc] using h

/-- Ids survive the whole item loop. -/
theorem foldl_recoStep_id_mem (emap : List (String × DbRow)) (user : String) :
    ∀ (items : List InItem) (acc : RecoOut) (i : Nat),
      i ∈ acc.post.rows.map DbRow.id →
      i ∈ ((items.foldl (recoStep emap user) acc).post.rows.map DbRow.id) := by
  intro items
  induction items with
  | nil => intro acc i h; simpa using h
  | cons it rest ih =>
    intro acc i h
    exact ih _ _ (recoStep_id_mem emap user acc it i h)

/-- A persisted row whose upper-cased serial differs from the incoming
item's is not touched by the step. -/
theorem recoStep_preserves (origRows : List DbRow)
    (hnd : (origRows.map DbRow.id).Nodup) (user : String) (r : DbRow)
    (hr : r ∈ origRows) (it : InItem)
    (hser : jsToUpper it.serial ≠ jsToUpper r.serial)
    (acc : RecoOut) (hmem : r ∈ acc.post.rows) :
    r ∈ (recoStep (buildExistingMap origRows) user acc it).post.rows := by
  unfold recoStep
  cases hm : assocGet (buildExistingMap origRows) (jsToUpper it.serial) with
  | none => simpa using Or.inl hmem
  | some m =>
    have hsound := buildExistingMap_sound origRows _ _ hm
    have hid : ¬r.id = m.id := by
      intro he
      have : r = m := List.inj_on_of_nodup_map hnd hr hsound.1 he
      exact hser (by rw [← hsound.2, this])
    by_cases hc : (processMatched m user it).2.1
    · simp only [hc, if_pos]
      have : (if r.id = m.id then setFields r (processMatched m user it).1 else r) = r :=
        if_neg hid
      exact this ▸ List.mem_map_of_mem _ hmem
    · simpa [hc] using hmem

/-- C7 — Reconciliation no-delete / frame property.  Provided the persisted
ids are distinct (they are a primary key), a persisted row whose upper-cased
serial matches no incoming item is still present, entirely unmodified, after
the run; and no run ever deletes a row: every pre-existing id is still
present afterwards. -/
theorem reconcile_frame (st : RecoSt) (items : List InItem) (user : String)
    (hnd : (st.rows.map DbRow.id).Nodup) (r : DbRow) (hr : r ∈ st.rows)
    (hser : ∀ it ∈ items, jsToUpper it.serial ≠ jsToUpper r.serial) :
    r ∈ (reconcile st items user).post.rows ∧
    ∀ r₀ ∈ st.rows, ∃ r', r' ∈ (reconcile st items user).post.rows ∧ r'.id = r₀.id := by
  constructor
  · have main : ∀ (its : List InItem)
        (_ : ∀ it ∈ its, jsToUpper it.serial ≠ jsToUpper r.serial)
        (acc : RecoOut) (_ : r ∈ acc.post.rows),
        r ∈ ((its.foldl (recoStep (buildExistingMap st.rows) user) acc).post.rows) := by
      intro its
      induction its with
      | nil => intro _ acc h; simpa using h
      | cons it rest ih =>
        intro hall acc h
        exact ih (fun x hx => hall x (List.mem_cons_of_mem _ hx)) _
          (recoStep_preserves st.rows hnd user r hr it (hall it (List.mem_cons_self _ _)) acc h)
    exact main items hser _ hr
  · intro r₀ hr₀
    have : r₀.id ∈ ((reconcile st items user).post.rows.map DbRow.id) := by
      exact foldl_recoStep_id_mem _ user items _ _ (List.mem_map_of_mem _ hr₀)
    rcases List.mem_map.mp this with ⟨r', hr', hid⟩
    exact ⟨r', hr', hid⟩

/-- Witness for C7: persisted rows `{id 1, serial "AAA"}` and
`{id 2, serial "BBB"}`, incoming item for `"AAA"` only — row 2 survives
unmodified and both ids survive. -/
theorem reconcile_frame_witness :
    (⟨2, "BBB", [(.status, .str "Estoque")]⟩ : DbRow) ∈
      (reconcile ⟨[⟨1, "AAA", [(.usuarioAtual, .str "Bob"), (.status, .str "Em Uso")]⟩,
                   ⟨2, "BBB", [(.status, .str "Estoque")]⟩], 3⟩
        [⟨"AAA", [(.usuarioAtual, "")]⟩] "u").post.rows ∧
    ∀ r₀ ∈ ([⟨1, "AAA", [(.usuarioAtual, .str "Bob"), (.status, .str "Em Uso")]⟩,
             ⟨2, "BBB", [(.status, .str "Estoque")]⟩] : List DbRow),
      ∃ r', r' ∈ (reconcile ⟨[⟨1, "AAA", [(.usuarioAtual, .str "Bob"), (.status, .str "Em Uso")]⟩,
                   ⟨2, "BBB", [(.status, .str "Estoque")]⟩], 3⟩
        [⟨"AAA", [(.usuarioAtual, "")]⟩] "u").post.rows ∧ r'.id = r₀.id :=
  reconcile_frame
    ⟨[⟨1, "AAA", [(.usuarioAtual, .str "Bob"), (.status, .str "Em Uso")]⟩,
      ⟨2, "BBB", [(.status, .str "Estoque")]⟩], 3⟩
    [⟨"AAA", [(.usuarioAtual, "")]⟩] "u" (by decide)
    ⟨2, "BBB", [(.status, .str "Estoque")]⟩ (by decide) (by decide)

/-- C6 — Consolidation precedence.  When both inputs are supplied, a base
record and an absolute record sharing a merge key produce the single record
`{...base, ...absolute}` (then status-adjusted): per field, a field present
on the absolute record overwrites, an absent one keeps the base value. -/
theorem consolidation_precedence (b a : JObj)
    (ha : (a.map Prod.fst).Nodup) (hk : consMergeKey a = consMergeKey b) :
    consolidateBoth [b] [a] = [statusAdjust (jsSpread b a)] ∧
    ∀ f, assocGet (jsSpread b a) f
      = if (assocGet a f).isSome then assocGet a f else assocGet b f := by
  constructor
  · simp [consolidateBoth, buildConsMap, hk, assocSet, assocGet]
  · intro f
    exact assocGet_jsSpread b a ha f

/-- Witness for C6 — the spec's own example: base `{serial: "X", brand:
"Dell"}` overlaid with absolute `{serial: "X", brand: "HP", usuarioAtual:
"Alice"}` consolidates to the single record `{serial: "X", brand: "HP",
usuarioAtual: "Alice", status: "Em Uso"}`. -/
theorem consolidation_precedence_witness :
    consolidateBoth [[(.serial, "X"), (.brand, "Dell")]]
        [[(.serial, "X"), (.brand, "HP"), (.usuarioAtual, "Alice")]]
      = [[(.serial, "X"), (.brand, "HP"), (.usuarioAtual, "Alice"), (.status, "Em Uso")]] := by
  have h := (consolidation_precedence [(.serial, "X"), (.brand, "Dell")]
    [(.serial, "X"), (.brand, "HP"), (.usuarioAtual, "Alice")] (by decide) (by decide)).1
  rw [h]
  rfl

/-- Reading across an append: the left entries are probed first. -/
theorem assocGet_append {α β : Type} [DecidableEq α] (l1 l2 : List (α × β)) (k : α) :
    assocGet (l1 ++ l2) k
      = match assocGet l1 k with
        | some v => some v
        | none => assocGet l2 k := by
  induction l1 with
  | nil => simp [assocGet]
  | cons ab rest ih =>
    obtain ⟨a, b⟩ := ab
    by_cases h : a = k
    · simp [assocGet, h]
    · simp [assocGet, h, ih]

/-- Every row the import inserts carries the fixed
`approval_status = 'approved'` and `created_by_id = 1`. -/
theorem importRow_fixed (idv : Nat) (item : JObj) :
    assocGet (importRow idv item).fields .approvalStatus = some (.str "approved") ∧
    assocGet (importRow idv item).fields .createdById = some (.num 1) := by
  simp [importRow, importColumns, assocGet]

/-- Rows produced by `importRowsFrom` are `importRow` images. -/
theorem importRowsFrom_mem :
    ∀ (items : List JObj) (n : Nat) (r : DbRow),
      r ∈ importRowsFrom n items → ∃ k item, r = importRow k item := by
  intro items
  induction items with
  | nil => intro n r h; cases h
  | cons item rest ih =>
    intro n r h
    simp only [importRowsFrom, List.mem_cons] at h
    rcases h with h | h
    · exact ⟨n, item, h⟩
    · exact ih (n + 1) r h

/-- Closed form of the import insertion loop. -/
theorem importOp_foldAux :
    ∀ (items : List JObj) (rows : List DbRow) (hist : List FieldChange) (n : Nat),
      items.foldl
          (fun s item =>
            { s with rows := s.rows ++ [importRow s.nextId item], nextId := s.nextId + 1 })
          (⟨rows, hist, n⟩ : ImportSt)
        = ⟨rows ++ importRowsFrom n items, hist, n + items.length⟩ := by
  intro items
  induction items with
  | nil => intro rows hist n; simp [importRowsFrom]
  | cons item rest ih =>
    intro rows hist n
    have hstep : (item :: rest).foldl
        (fun s item =>
          { s with rows := s.rows ++ [importRow s.nextId item], nextId := s.nextId + 1 })
        (⟨rows, hist, n⟩ : ImportSt)
      = rest.foldl
        (fun s item =>
          { s with rows := s.rows ++ [importRow s.nextId item], nextId := s.nextId + 1 })
        (⟨rows ++ [importRow n item], hist, n + 1⟩ : ImportSt) := rfl
    rw [hstep, ih]
    simp only [importRowsFrom]
    congr 1
    · simp
    · simp only [List.length_cons]
      omega

/-- C10 — Import is a full replace.  Whatever the pre-existing store held,
after `importOp st items` the history table is empty, the equipment table is
exactly one row per incoming record with ids 1, 2, …, the counter is reset
past them, and every inserted row carries `approval_status = 'approved'` and
`created_by_id = 1`. -/
theorem import_full_replace (st : ImportSt) (items : List JObj) :
    importOp st items = ⟨importRowsFrom 1 items, [], items.length + 1⟩ ∧
    (importOp st items).rows.length = items.length ∧
    ∀ r ∈ importRowsFrom 1 items,
      assocGet r.fields .approvalStatus = some (.str "approved") ∧
      assocGet r.fields .createdById = some (.num 1) := by
  have hlen : ∀ (its : List JObj) (n : Nat), (importRowsFrom n its).length = its.length := by
    intro its
    induction its with
    | nil => intro n; rfl
    | cons x xs ih => intro n; simp [importRowsFrom, ih]
  have hmain : importOp st items = ⟨importRowsFrom 1 items, [], items.length + 1⟩ := by
    unfold importOp
    rw [importOp_foldAux items [] [] 1]
    simp [Nat.add_comm]
  refine ⟨hmain, ?_, ?_⟩
  · rw [hmain]
    exact hlen items 1
  · intro r hr
    rcases importRowsFrom_mem items 1 r hr with ⟨k, item, rfl⟩
    exact importRow_fixed k item

/-- Witness for C10: importing one record over a non-empty store with a
non-empty history and a stale counter yields exactly that record with id 1,
`approved`, `created_by_id = 1`, and an empty history. -/
theorem import_full_replace_witness :
    importOp ⟨[⟨7, "OLD", [(.status, .str "Em Uso")]⟩],
              [⟨7, "x", .create, .null, .undef⟩], 9⟩ [[(.serial, "A")]]
      = ⟨importRowsFrom 1 [[(.serial, "A")]], [], 2⟩ ∧
    assocGet (importRow 1 [(.serial, "A")]).fields .approvalStatus
      = some (.str "approved") := by
  have h := import_full_replace
    ⟨[⟨7, "OLD", [(.status, .str "Em Uso")]⟩], [⟨7, "x", .create, .null, .undef⟩], 9⟩
    [[(.serial, "A")]]
  exact ⟨h.1, (h.2.2 (importRow 1 [(.serial, "A")]) (by simp [importRowsFrom])).1⟩

/-- Code point of an upper-cased character. -/
theorem toNat_upChar (c : Char) (h : 97 ≤ c.toNat ∧ c.toNat ≤ 122) :
    (upChar c).toNat = c.toNat - 32 := by
  have hv : (c.toNat - 32).isValidChar := Or.inl (by omega)
  rw [upChar, if_pos h, Char.ofNat, dif_pos hv]
  simp [Char.ofNatAux, Char.toNat, UInt32.toNat]

/-- Upper-casing is idempotent. -/
theorem upChar_idem (c : Char) : upChar (upChar c) = upChar c := by
  by_cases h : 97 ≤ c.toNat ∧ c.toNat ≤ 122
  · have ht := toNat_upChar c h
    have hno : ¬(97 ≤ (upChar c).toNat ∧ (upChar c).toNat ≤ 122) := by omega
    rw [upChar, if_neg hno]
  · have he : upChar c = c := by rw [upChar, if_neg h]
    rw [he, he]

/-- Upper-casing maps no character onto the space character, and fixes the
space character. -/
theorem upChar_eq_space (c : Char) : upChar c = ' ' ↔ c = ' ' := by
  constructor
  · intro h
    by_cases hc : 97 ≤ c.toNat ∧ c.toNat ≤ 122
    · exfalso
      have ht := toNat_upChar c hc
      rw [h] at ht
      have : (' ').toNat = 32 := by decide
      omega
    · rwa [upChar, if_neg hc] at h
  · intro h
    subst h
    decide

/-- Upper-casing commutes with removing spaces. -/
theorem filter_map_upChar (l : List Char) :
    (l.map upChar).filter (fun c => c ≠ ' ')
      = (l.filter (fun c => c ≠ ' ')).map upChar := by
  induction l with
  | nil => rfl
  | cons c cs ih =>
    by_cases h : c = ' '
    · subst h
      have h1 : upChar ' ' = ' ' := by decide
      simp only [List.map_cons, List.filter_cons, h1]
      simp only [decide_not]
      simp
      simpa using ih
    · have h1 : upChar c ≠ ' ' := fun hh => h ((upChar_eq_space c).mp hh)
      simp only [List.map_cons, List.filter_cons]
      simp [h, h1]
      simpa using ih

/-- Removing spaces is idempotent. -/
theorem filter_space_idem (l : List Char) :
    (l.filter (fun c => c ≠ ' ')).filter (fun c => c ≠ ' ')
      = l.filter (fun c => c ≠ ' ') := by
  induction l with
  | nil => rfl
  | cons c cs ih =>
    by_cases h : c = ' '
    · simp [h, ih]
    · simp [h, ih]

/-- C5 amended — MergeKey derivation, as the code actually computes it.  The
consolidation key (`handleConsolidate`) is `stripSpaces ∘ jsToUpper` and is
invariant under pre-upper-casing and pre-space-stripping, so `"SN 123"` and
`"sn123"` collide there; the reconciliation key (`periodic-update`) is
`jsToUpper` alone — invariant under upper-casing but NOT space-insensitive:
`"SN 123"` and `"sn123"` do not collide in reconciliation. -/
theorem mergeKey_amended :
    (∀ s : String, jsToUpper (jsToUpper s) = jsToUpper s) ∧
    (∀ s : String, stripSpaces (jsToUpper (jsToUpper s)) = stripSpaces (jsToUpper s)) ∧
    (∀ s : String, stripSpaces (jsToUpper (stripSpaces s)) = stripSpaces (jsToUpper s)) ∧
    stripSpaces (jsToUpper "SN 123") = stripSpaces (jsToUpper "sn123") ∧
    jsToUpper "SN 123" ≠ jsToUpper "sn123" := by
  have hupper : ∀ s : String, jsToUpper (jsToUpper s) = jsToUpper s := by
    intro s
    show (⟨(s.data.map upChar).map upChar⟩ : String) = ⟨s.data.map upChar⟩
    rw [List.map_map]
    exact congrArg String.mk (List.map_congr_left (fun c _ => upChar_idem c))
  refine ⟨hupper, fun s => congrArg stripSpaces (hupper s), ?_, by decide, by decide⟩
  intro s
  show (⟨((s.data.filter (fun c => c ≠ ' ')).map upChar).filter (fun c => c ≠ ' ')⟩ : String)
      = ⟨(s.data.map upChar).filter (fun c => c ≠ ' ')⟩
  refine congrArg String.mk ?_
  calc ((s.data.filter (fun c => c ≠ ' ')).map upChar).filter (fun c => c ≠ ' ')
      = ((s.data.filter (fun c => c ≠ ' ')).filter (fun c => c ≠ ' ')).map upChar := by
        rw [filter_map_upChar]
    _ = (s.data.filter (fun c => c ≠ ' ')).map upChar := by rw [filter_space_idem]
    _ = (s.data.map upChar).filter (fun c => c ≠ ' ') := (filter_map_upChar s.data).symm

/-- Closed form of the diff loop over an arbitrary starting accumulator. -/
theorem diffStep_foldAux (r : DbRow) (user : String) :
    ∀ (fields : List (FieldName × String)) (acc : DiffAcc),
      ((fields.foldl (diffStep r user) acc).history
        = acc.history ++ (fields.filter (stageChange r)).map (chEntry r user)) ∧
      ((fields.foldl (diffStep r user) acc).hasChanges
        = (acc.hasChanges || !(fields.filter (stageChange r)).isEmpty)) := by
  intro fields
  induction fields with
  | nil => intro acc; simp
  | cons kv rest ih =>
    intro acc
    by_cases h : stageChange r kv
    · have hstep : diffStep r user acc kv
          = { updates := assocSet acc.updates kv.1 kv.2
              hasChanges := true
              history := acc.history ++ [chEntry r user kv] } := by
        rw [diffStep, if_pos h]
      constructor
      · rw [List.foldl_cons, hstep, (ih _).1]
        simp [List.filter_cons, h]
      · rw [List.foldl_cons, hstep, (ih _).2]
        simp [List.filter_cons, h]
    · have hstep : diffStep r user acc kv = acc := by
        rw [diffStep, if_neg h]
      constructor
      · rw [List.foldl_cons, hstep, (ih _).1]
        simp [List.filter_cons, h]
      · rw [List.foldl_cons, hstep, (ih _).2]
        simp [List.filter_cons, h]

/-- C4 amended — Diff correctness, as the code actually computes it.  During
reconciliation of a matched record, the diff loop emits exactly one
`FieldChange` for each incoming field (other than `serial`) whose value
differs under STRICT `!==` comparison from the value the handler read for
that field — the projected `usuarioAtual`/`status` columns, `undefined` for
every other column — with no string normalization; and `hasChanges` is set
iff at least one such field exists.  In particular `null` versus `""` counts
as a difference (`jsStrictNeq (.str "") .null = true`). -/
theorem diff_strict_characterization :
    (∀ (r : DbRow) (user : String) (it : InItem),
      (diffFields r user it).history
        = (it.fields.filter (stageChange r)).map (chEntry r user) ∧
      (diffFields r user it).hasChanges
        = !(it.fields.filter (stageChange r)).isEmpty) ∧
    jsStrictNeq (.str "") .null = true := by
  refine ⟨fun r user it => ?_, by decide⟩
  have h := diffStep_foldAux r user it.fields ⟨[], false, []⟩
  exact ⟨by simpa using h.1, by simpa using h.2⟩

/-- Every record `parseRow` lets through has a non-empty, non-whitespace
serial. -/
theorem parseRow_serial (mappings : Mappings) (header : List String)
    (row : String) (rec : JObj) (h : parseRow mappings header row = some rec) :
    ∃ s, assocGet rec .serial = some s ∧ s ≠ "" ∧ jsTrim s ≠ "" := by
  rw [parseRow] at h
  by_cases hb : jsTrim row = ""
  · rw [if_pos hb] at h; cases h
  · rw [if_neg hb] at h
    simp only [] at h
    cases hs : assocGet (buildEntry mappings header (splitCsvLine row)) FieldName.serial with
    | none => rw [hs] at h; cases h
    | some s =>
      rw [hs] at h
      have h : (if s = "" ∨ jsTrim s = ""
          then none
          else some (buildEntry mappings header (splitCsvLine row))) = some rec := h
      by_cases he : s = "" ∨ jsTrim s = ""
      · rw [if_pos he] at h; cases h
      · rw [if_neg he] at h
        push_neg at he
        have hrec : buildEntry mappings header (splitCsvLine row) = rec :=
          Option.some_inj.mp h
        exact ⟨s, hrec ▸ hs, he.1, he.2⟩

/-- C8 — Serial-required invariant.  Every record in a successful parse has a
`serial` that is present, non-empty, and non-whitespace (rows failing this
are discarded and never reach the consolidator, reconciler, or store); and
the spec's example — header `SERIAL,EQUIPAMENTO` with the single data row
`,"My PC"` — produces zero records. -/
theorem parser_serial_required :
    (∀ (text : String) (maps : Mappings) (out : List JObj),
      parseCsv text maps = .ok out →
      ∀ rec ∈ out, ∃ s, assocGet rec .serial = some s ∧ s ≠ "" ∧ jsTrim s ≠ "") ∧
    parseCsv "SERIAL,EQUIPAMENTO\n,\"My PC\"" baseMappings = .ok [] := by
  constructor
  · intro text maps out hok rec hrec
    simp only [parseCsv] at hok
    split at hok
    · exact Except.noConfusion hok
    · injection hok with hok
      rcases List.mem_filterMap.mp (hok ▸ hrec) with ⟨row, _, hf⟩
      exact parseRow_serial _ _ _ _ hf
  · rfl

/-- Witness for C8: a well-formed row parses to a record whose serial the
theorem certifies. -/
theorem parser_serial_required_witness :
    parseCsv "SERIAL,EQUIPAMENTO\nSN1,PC" baseMappings
      = .ok [[(.serial, "SN1"), (.equipamento, "PC")]] ∧
    ∃ s, assocGet ([(.serial, "SN1"), (.equipamento, "PC")] : JObj) .serial = some s ∧
      s ≠ "" ∧ jsTrim s ≠ "" := by
  refine ⟨rfl, ?_⟩
  exact parser_serial_required.1 "SERIAL,EQUIPAMENTO\nSN1,PC" baseMappings
    [[(.serial, "SN1"), (.equipamento, "PC")]] rfl
    [(.serial, "SN1"), (.equipamento, "PC")] (List.mem_singleton.mpr rfl)

/-- The matched-record status outcome of one reconciliation run, for a
persisted row with arbitrary occupant and status and an incoming item
carrying only `usuarioAtual`. -/
theorem recoSingle_status (u pstat : String) (pu : JVal) (user : String) :
    (reconcile ⟨[⟨1, "S", [(.usuarioAtual, pu), (.status, .str pstat)]⟩], 2⟩
        [⟨"S", [(.usuarioAtual, u)]⟩] user).post.rows.map (fun q => dbGet q .status)
      = [.str (if jsTrim u = "" then "Estoque" else "Em Uso")] := by
  have hns : newStatus ⟨"S", [(.usuarioAtual, u)]⟩
      = if jsTrim u = "" then "Estoque" else "Em Uso" := by
    by_cases ht : jsTrim u = "" <;> simp [newStatus, itemUsuario, assocGet, ht]
  by_cases hc1 : JVal.str u = pu <;>
    by_cases hc2 : JVal.str (if jsTrim u = "" then "Estoque" else "Em Uso") = JVal.str pstat <;>
      simp [reconcile, recoStep, buildExistingMap, processMatched, diffFields, diffStep,
        stageChange, existingView, dbGet, assocGet, assocSet, setFields, hns,
        jsStrictNeq, chEntry, hc1, hc2]

/-- A status write does not touch the occupant field. -/
theorem nonblank_set_status (o : JObj) (v : String) :
    nonblankUser (assocSet o .status v) = nonblankUser o := by
  simp [nonblankUser, assocGet_assocSet]

/-- C1 amended — Status derivation as the code actually computes it.  In
periodic reconciliation a matched record ends with status `"Em Uso"` when the
trimmed incoming `usuarioAtual` is non-blank and `"Estoque"` when it is
blank, REGARDLESS of the persisted status — the terminal statuses
`{Manutenção, Descartado, Perdido, Doado}` are not protected.  In
consolidation a record with a non-blank occupant gets status `"Em Uso"`,
while a record with a blank occupant passes through entirely unchanged — it
is never forced to `"Estoque"`. -/
theorem statusDerivation_amended :
    (∀ (u pstat : String) (pu : JVal) (user : String),
      (reconcile ⟨[⟨1, "S", [(.usuarioAtual, pu), (.status, .str pstat)]⟩], 2⟩
          [⟨"S", [(.usuarioAtual, u)]⟩] user).post.rows.map (fun q => dbGet q .status)
        = [.str (if jsTrim u = "" then "Estoque" else "Em Uso")]) ∧
    (∀ (bs as : List JObj) (rec : JObj), rec ∈ consolidateBoth bs as →
      (nonblankUser rec = true → assocGet rec .status = some "Em Uso") ∧
      (nonblankUser rec = false → rec ∈ (buildConsMap bs as).map Prod.snd)) := by
  refine ⟨recoSingle_status, ?_⟩
  intro bs as rec hrec
  rcases List.mem_map.mp hrec with ⟨m, hm, heq⟩
  by_cases hnb : nonblankUser m
  · have hrec2 : rec = assocSet m .status "Em Uso" := by
      rw [← heq, statusAdjust, if_pos hnb]
    constructor
    · intro _
      rw [hrec2, assocGet_assocSet]
      simp
    · intro hfalse
      exfalso
      rw [hrec2, nonblank_set_status] at hfalse
      rw [hnb] at hfalse
      cases hfalse
  · have hrec2 : rec = m := by rw [← heq, statusAdjust, if_neg hnb]
    constructor
    · intro htrue
      exact absurd (hrec2 ▸ htrue) hnb
    · intro _
      exact hrec2 ▸ hm

/-- Witness for C1 amended: a persisted `"Manutenção"` row with a blank
incoming occupant ends as `"Estoque"` in reconciliation, and the consolidated
record for an occupied device carries status `"Em Uso"`. -/
theorem statusDerivation_amended_witness :
    (reconcile ⟨[⟨1, "S", [(.usuarioAtual, .str ""), (.status, .str "Manutenção")]⟩], 2⟩
        [⟨"S", [(.usuarioAtual, "")]⟩] "u").post.rows.map (fun q => dbGet q .status)
      = [.str "Estoque"] ∧
    assocGet ([(.serial, "X"), (.usuarioAtual, "Alice"), (.status, "Em Uso")] : JObj) .status
      = some "Em Uso" := by
  constructor
  · have h := statusDerivation_amended.1 "" "Manutenção" (.str "") "u"
    simpa using h
  · exact (statusDerivation_amended.2 [[(.serial, "X"), (.usuarioAtual, "Alice")]] []
      [(.serial, "X"), (.usuarioAtual, "Alice"), (.status, "Em Uso")] (by decide)).1 (by decide)
